import Mathlib

/-!
Shallow embedding of the Kaizen habit tracker core (src/src/domain/habit.ts,
src/src/ui/sidebarView.ts, src/src/settings/settings.ts and the service layer)
into Lean 4, together with theorems settling the specification claims.

Modelling conventions:
* A calendar day identifier is a `YYYY-MM-DD` string (`ISODate = String`),
  exactly as in the source.  The JavaScript `Date` machinery used by
  `currentStreak.dayBefore` and `longestStreak.diffDays` maps a valid ISO
  string to its civil epoch-day number (UTC midnight) and back; we embed that
  with `toDayNumber`/`fromDayNumber`, implementing the standard civil-calendar
  conversion on `Int`.
* Universal streak lemmas are additionally stated on an `Int` epoch-day
  rendering of the same loops (`currentStreakZ`, `longestStreakZ`): JS dates
  are in bijection with epoch days, lexicographic order on `YYYY-MM-DD`
  strings is chronological order, and `getTime` differences of date-only
  strings are exact whole-day differences.
* JS `Array.prototype.sort()` (lexicographic on strings, used ascending) is
  embedded as `List.insertionSort strLeP` with `strLeP` the code-point
  lexicographic order, and on epoch days as `List.insertionSort (· ≤ ·)`.
* The unbounded `for (let i = 0;;i++)` walk of `currentStreak` terminates as
  soon as a day is absent from the finite history, hence after at most
  `history.length + 1` probes; the embedding runs the identical loop body with
  that fuel, and fuel-sufficiency is proved (`streakLoop_fuel_eq`).
-/

/-- An `Int` is used for every numeric field read off a JS `Date`. -/
abbrev ISODate := String

/-- Leap-year test, as in the Gregorian calendar used by JS `Date` (UTC). -/
def isLeapYear (y : Int) : Bool :=
  (y % 4 == 0 && y % 100 != 0) || (y % 400 == 0)

/-- Number of days of month `m` of year `y` (Gregorian). -/
def daysInMonth (y m : Int) : Int :=
  if m == 2 then (if isLeapYear y then 29 else 28)
  else if m == 4 || m == 6 || m == 9 || m == 11 then 30
  else 31

/-- Civil date to epoch-day count (days since 1970-01-01), the number that
`Date.getTime() / 86400000` yields for a `YYYY-MM-DD` string parsed by JS. -/
def daysFromCivil (y m d : Int) : Int :=
  let y' := if m ≤ 2 then y - 1 else y
  let era := Int.fdiv y' 400
  let yoe := y' - era * 400
  let mp := if m > 2 then m - 3 else m + 9
  let doy := Int.fdiv (153 * mp + 2) 5 + d - 1
  let doe := yoe * 365 + Int.fdiv yoe 4 - Int.fdiv yoe 100 + doy
  era * 146097 + doe - 719468

/-- Epoch-day count back to a civil date `(y, m, d)`; the inverse direction of
the JS `Date` arithmetic (`setDate` + `toISOString`). -/
def civilFromDays (z : Int) : Int × Int × Int :=
  let z' := z + 719468
  let era := Int.fdiv z' 146097
  let doe := z' - era * 146097
  let yoe := Int.fdiv (doe - Int.fdiv doe 1460 + Int.fdiv doe 36524 - Int.fdiv doe 146096) 365
  let y := yoe + era * 400
  let doy := doe - (365 * yoe + Int.fdiv yoe 4 - Int.fdiv yoe 100)
  let mp := Int.fdiv (5 * doy + 2) 153
  let d := doy - Int.fdiv (153 * mp + 2) 5 + 1
  let m := if mp < 10 then mp + 3 else mp - 9
  (if m ≤ 2 then y + 1 else y, m, d)

/-- Check that a character is an ASCII digit. -/
def isDigitChar (c : Char) : Bool := '0' ≤ c && c ≤ '9'

/-- Numeric value of a list of ASCII digit characters. -/
def digitsToInt (cs : List Char) : Int :=
  cs.foldl (fun acc c => acc * 10 + (Int.ofNat c.toNat - 48)) 0

/-- Shape test for the first ten characters of a string:
`DDDD-DD-DD` with `D` a digit.  This is the character-class content of the
source regexes `^(\d{4}-\d{2}-\d{2})` and `^\d{4}-\d{2}-\d{2}$`. -/
def isoShape (cs : List Char) : Bool :=
  match cs with
  | [a, b, c, d, h1, e, f, h2, g, i] =>
    isDigitChar a && isDigitChar b && isDigitChar c && isDigitChar d &&
    h1 == '-' && isDigitChar e && isDigitChar f && h2 == '-' &&
    isDigitChar g && isDigitChar i
  | _ => false

/-- Full-string match of the strict calendar-day grammar, the filter regex
`^\d{4}-\d{2}-\d{2}$` of `normalizeHistory`. -/
def isShapeISO (s : String) : Bool := isoShape s.data

/-- Parse a strict `YYYY-MM-DD` string into `(y, m, d)` provided the fields
are a real calendar date — JS `new Date(s)` yields an Invalid Date (on which
`toISOString` throws) for out-of-range fields, so those are rejected too. -/
def parseISO (s : String) : Option (Int × Int × Int) :=
  match s.data with
  | [a, b, c, d, h1, e, f, h2, g, i] =>
    if isoShape [a, b, c, d, h1, e, f, h2, g, i] then
      let y := digitsToInt [a, b, c, d]
      let m := digitsToInt [e, f]
      let dd := digitsToInt [g, i]
      if 1 ≤ m && m ≤ 12 && 1 ≤ dd && dd ≤ daysInMonth y m then
        some (y, m, dd)
      else none
    else none
  | _ => none

/-- Epoch-day number of a strict `YYYY-MM-DD` string, i.e. what the JS `Date`
constructed from it denotes; `none` models an Invalid Date. -/
def toDayNumber (s : String) : Option Int :=
  (parseISO s).map (fun t => daysFromCivil t.1 t.2.1 t.2.2)

/-- Left-pad the decimal rendering of a nonnegative `Int` to `n` characters
with zeros, as `toISOString` (4-digit year) and `padStart(2, '0')` do. -/
def padNum (n : Nat) (v : Int) : String :=
  let s := toString v.toNat
  if s.length < n then String.mk (List.replicate (n - s.length) '0') ++ s else s

/-- Render an epoch-day number as the `YYYY-MM-DD` string produced by
`Date.toISOString().slice(0, 10)`. -/
def fromDayNumber (z : Int) : ISODate :=
  let c := civilFromDays z
  padNum 4 c.1 ++ "-" ++ padNum 2 c.2.1 ++ "-" ++ padNum 2 c.2.2

/-- Lexicographic comparison of character lists by code point, the comparison
used by the JS default `Array.prototype.sort()` on strings. -/
def charsLe : List Char → List Char → Bool
  | [], _ => true
  | _ :: _, [] => false
  | a :: as, b :: bs =>
    if a.toNat < b.toNat then true
    else if b.toNat < a.toNat then false
    else charsLe as bs

/-- String comparison of the JS default sort. -/
def strLe (a b : String) : Bool := charsLe a.data b.data

/-- The JS sort order as a `Prop`-valued relation, for `List.insertionSort`. -/
def strLeP (a b : String) : Prop := strLe a b = true

instance : DecidableRel strLeP := fun a b => by
  unfold strLeP
  infer_instance

/-- The record type of `src/src/domain/habit.ts` (`interface Habit`). -/
structure Habit where
  id : String
  title : String
  trigger : Option String
  schedule : Option String
  history : List ISODate
  count : Option Int
deriving DecidableEq

/-- Source `deriveCount`: the explicit `count` if defined, else the history
length. -/
def deriveCount (h : Habit) : Int :=
  match h.count with
  | some c => c
  | none => Int.ofNat h.history.length

/-- Source `markDone`: if `date` is not yet in the history, append it, sort,
and set `count` to the new history length; otherwise return the record
unchanged. -/
def markDone (habit : Habit) (date : ISODate) : Habit :=
  if habit.history.contains date then habit
  else
    let newHistory := List.insertionSort strLeP (habit.history ++ [date])
    { habit with history := newHistory, count := some (Int.ofNat newHistory.length) }

/-- The body of the source `currentStreak` loop, abstracted over the
membership test `mem` (the JS `Set.has` on the habit's history): starting at
day `z`, walk backwards one day per step, counting while `mem` holds, and
stop at the first absent day.  `fuel` bounds the number of probes; any fuel
larger than the answer gives the same result (`streakLoop_fuel_eq`). -/
def streakLoop (mem : Int → Bool) : Int → Nat → Nat
  | _, 0 => 0
  | z, n + 1 => if mem z then streakLoop mem (z - 1) n + 1 else 0

/-- Source `currentStreak` on ISO strings: the set is the habit's raw history
strings and each probed day is formatted canonically before the membership
test, exactly as `set.has(dayBefore(now, i))` does; `none` models the JS
exception raised when `now` is not a valid date. -/
def currentStreak (history : List ISODate) (now : ISODate) : Option Nat :=
  (toDayNumber now).map
    (fun z => streakLoop (fun w => history.contains (fromDayNumber w)) z (history.length + 1))

/-- The epoch-day rendering of `currentStreak`: histories and the reference
day are given directly as epoch-day numbers. -/
def currentStreakZ (history : List Int) (day : Int) : Nat :=
  streakLoop (fun w => history.contains w) day (history.length + 1)

/-- The scan of the source `longestStreak` over the sorted history, with
`prev` the previous entry, `cur` the running streak and `mx` the maximum
observed; a gap of exactly one day extends the run, anything else (including
the zero gap produced by a duplicate) resets it to 1. -/
def longestGoZ (prev : Int) (cur mx : Nat) : List Int → Nat
  | [] => mx
  | x :: xs =>
    if x - prev = 1 then longestGoZ x (cur + 1) (max mx (cur + 1)) xs
    else longestGoZ x 1 mx xs

/-- Epoch-day rendering of the source `longestStreak`: sort ascending, scan
adjacent pairs; empty history yields 0. -/
def longestStreakZ (history : List Int) : Nat :=
  match List.insertionSort (· ≤ ·) history with
  | [] => 0
  | x :: xs => longestGoZ x 1 1 xs

/-- The contiguous run of days `a, a+1, …, a+j-1`, the shape the walked
streak days take inside the sorted deduplicated history. -/
def runList (a : Int) : Nat → List Int
  | 0 => []
  | j + 1 => a :: runList (a + 1) j

/-- The `diffDays === 1` test of the source `longestStreak` on ISO strings:
`(curr.getTime() - prev.getTime()) / 86400000` is the epoch-day difference
for valid date-only strings, and `NaN` (never equal to 1) otherwise. -/
def isOneDayAfter (prev x : ISODate) : Bool :=
  match toDayNumber x, toDayNumber prev with
  | some a, some b => a - b == 1
  | _, _ => false

/-- String-level scan of the source `longestStreak`. -/
def longestGo (prev : ISODate) (cur mx : Nat) : List ISODate → Nat
  | [] => mx
  | x :: xs =>
    if isOneDayAfter prev x then longestGo x (cur + 1) (max mx (cur + 1)) xs
    else longestGo x 1 mx xs

/-- Source `longestStreak` on ISO strings. -/
def longestStreak (history : List ISODate) : Nat :=
  match List.insertionSort strLeP history with
  | [] => 0
  | x :: xs => longestGo x 1 1 xs

/-- A raw history entry as js-yaml hands it to `normalizeHistory`: either a JS
`Date` object (carrying UTC year/month/day fields) or any other value after
the `String(item)` coercion. -/
inductive RawItem where
  | date (y m d : Int)
  | str (s : String)
deriving DecidableEq

/-- Render a JS number the way template interpolation does (no padding). -/
def jsNumStr (v : Int) : String :=
  if v < 0 then "-" ++ toString (-v).toNat else toString v.toNat

/-- The `map` step of the source `normalizeHistory`: a `Date` contributes
`year-month-day` from its UTC fields (month/day padded to two digits, the
year interpolated unpadded); a string contributes its leading `YYYY-MM-DD`
prefix when the prefix regex matches, else the string itself. -/
def normalizeItem : RawItem → String
  | .date y m d => jsNumStr y ++ "-" ++ padNum 2 m ++ "-" ++ padNum 2 d
  | .str s => if isoShape (s.data.take 10) then String.mk (s.data.take 10) else s

/-- Source `normalizeHistory` (src/src/ui/sidebarView.ts): map each raw entry
to a candidate string, keep only full matches of the strict calendar-day
grammar, and sort ascending.  Note the source performs no deduplication. -/
def normalizeHistory (history : List RawItem) : List ISODate :=
  List.insertionSort strLeP ((history.map normalizeItem).filter isShapeISO)

/-- A YAML frontmatter value, as far as `writeHabit` distinguishes them. -/
inductive Val where
  | str (s : String)
  | int (n : Int)
  | bool (b : Bool)
  | list (l : List String)
  | null
deriving DecidableEq

/-- Set (or insert) key `k` to value `v` in an association list, the JS
object property assignment `fmObj[k] = v`. -/
def setKey : List (String × Val) → String → Val → List (String × Val)
  | [], k, v => [(k, v)]
  | (k', v') :: rest, k, v =>
    if k' = k then (k, v) :: rest else (k', v') :: setKey rest k v

/-- Look a key up in an association list, the JS property read. -/
def getKey : List (String × Val) → String → Option Val
  | [], _ => none
  | (k', v') :: rest, k => if k' = k then some v' else getKey rest k

/-- A backing document as `writeHabit` sees it after its regex split: `fm` is
the parsed existing frontmatter object (the empty object when the header is
absent or unparsable) and `body` is the text after the header block (`rest`),
reattached verbatim on write. -/
structure Doc where
  fm : List (String × Val)
  body : String
deriving DecidableEq

/-- The frontmatter overlay performed by the source `writeHabit`, in source
order: `title` always; `trigger` and `schedule` only when truthy (a defined,
non-empty string); `history` always, sorted; `count` only when defined; and
the `habit` flag forced to `true`. -/
def overlayHabit (fm : List (String × Val)) (habit : Habit) : List (String × Val) :=
  let fm := setKey fm "title" (.str habit.title)
  let fm := match habit.trigger with
    | some t => if t = "" then fm else setKey fm "trigger" (.str t)
    | none => fm
  let fm := match habit.schedule with
    | some sc => if sc = "" then fm else setKey fm "schedule" (.str sc)
    | none => fm
  let fm := setKey fm "history" (.list (List.insertionSort strLeP habit.history))
  let fm := match habit.count with
    | some c => setKey fm "count" (.int c)
    | none => fm
  setKey fm "habit" (.bool true)

/-- Source `writeHabit` on an existing backing document: re-parse the current
header, overlay the habit fields, reserialize, and reattach the original body
unchanged. -/
def writeHabit (doc : Doc) (habit : Habit) : Doc :=
  { fm := overlayHabit doc.fm habit, body := doc.body }

/-- An observable effect of the service layer on the vault. -/
inductive Effect where
  | write (h : Habit)
  | append (path line : String)
deriving DecidableEq

/-- The habit returned by the source `increment` before persisting: `markDone`
followed by `updated.count = deriveCount(updated)`. -/
def incrementUpdated (habit : Habit) (today : ISODate) : Habit :=
  let updated := markDone habit today
  { updated with count := some (deriveCount updated) }

/-- Source `increment` (service layer): apply the domain update, persist via
`writeHabit`, and, when daily-note logging is enabled, attempt the secondary
append; `secondary` is the outcome of that attempt (`.ok` carrying the
appended effects, `.error` modelling a thrown exception), and the source
`try/catch` swallows the error branch after logging a warning.  The result is
the returned habit together with the effects that actually happened. -/
def increment (habit : Habit) (today : ISODate) (autoLogDaily logToDailyNote : Bool)
    (secondary : Except String (List Effect)) : Except String (Habit × List Effect) :=
  let updated := incrementUpdated habit today
  let effs := [Effect.write updated]
  let effs :=
    if autoLogDaily && logToDailyNote then
      match secondary with
      | .ok es => effs ++ es
      | .error _ => effs
    else effs
  .ok (updated, effs)

/-- A registered day-change callback; the `.error` result models a callback
that throws. -/
abbrev DayCb := ISODate → ISODate → Except String Unit

/-- State of the source `DayChangeDetector` that `checkForDayChange` touches. -/
structure DetectorState where
  lastCheckedDate : ISODate
  callbacks : List DayCb

/-- The `forEach` of the source `checkForDayChange`: run every callback with
`(oldDate, newDate)`; a thrown error is caught (logged) and the loop
continues with the remaining callbacks either way.  The list of outcomes is
returned as the observable trace. -/
def runCallbacks (old new : ISODate) : List DayCb → List (Except String Unit)
  | [] => []
  | c :: cs =>
    match c old new with
    | .ok u => .ok u :: runCallbacks old new cs
    | .error e => .error e :: runCallbacks old new cs

/-- Source `checkForDayChange`: when the current day differs from the stored
one, invoke every callback with `(oldDay, newDay)` and then update the stored
day; otherwise do nothing. -/
def checkForDayChange (st : DetectorState) (currentDate : ISODate) :
    DetectorState × List (Except String Unit) :=
  if currentDate ≠ st.lastCheckedDate then
    ({ st with lastCheckedDate := currentDate },
     runCallbacks st.lastCheckedDate currentDate st.callbacks)
  else (st, [])

/-! Concrete records used by the claim witnesses and counterexamples. -/

/-- The habit of the C1 scenario: history `2025-11-09 … 2025-11-11`, reference
day `2025-11-12`. -/
def habC1 : Habit :=
  { id := "habits/test.md", title := "Test Habit", trigger := none, schedule := none,
    history := ["2025-11-09", "2025-11-10", "2025-11-11"], count := none }

/-- The C2/C4 duplicate history: `2025-11-11` appears twice. -/
def histDup : List ISODate := ["2025-11-10", "2025-11-11", "2025-11-11", "2025-11-12"]

/-- The habit of the C3 counterexample: an explicit `count` override of 5
with a single-entry history. -/
def habC3 : Habit :=
  { id := "habits/read.md", title := "Read", trigger := none, schedule := none,
    history := ["2025-11-09"], count := some 5 }

/-- The duplicated raw history of the C6 counterexample. -/
def rawC6 : List RawItem := [.str "2025-11-09", .str "2025-11-09"]

/-- The detector state of the C9 witness: two callbacks, the first of which
throws. -/
def stC9 : DetectorState :=
  { lastCheckedDate := "2025-11-11",
    callbacks := [fun _ _ => .error "boom", fun _ _ => .ok ()] }

/-- The concrete document and habit of the C8 witness: the header carries an
unrelated `custom` field that must survive the overlay. -/
def docC8 : Doc :=
  { fm := [("custom", Val.str "keep"), ("title", Val.str "Old")], body := "Notes" }

/-- The habit written in the C8 witness. -/
def habC8 : Habit :=
  { id := "a.md", title := "New", trigger := some "T", schedule := none,
    history := ["2025-11-09"], count := some 1 }

/-! Sanity checks that the embedded calendar arithmetic computes the same
values as the JS `Date` machinery on the dates used by the claims. -/

theorem calendar_sanity :
    fromDayNumber (daysFromCivil 2025 11 12) = "2025-11-12" ∧
    toDayNumber "2025-11-12" = some (daysFromCivil 2025 11 12) ∧
    fromDayNumber (daysFromCivil 2025 11 12 - 1) = "2025-11-11" ∧
    fromDayNumber (daysFromCivil 2024 3 1 - 1) = "2024-02-29" ∧
    toDayNumber "2025-13-01" = none ∧
    toDayNumber "2025-02-29" = none := by
  decide

theorem normalizeHistory_sanity :
    normalizeHistory [.str "2025-11-09T10:00:00Z", .str "bogus", .date 2025 11 8]
      = ["2025-11-08", "2025-11-09"] := by
  decide

/-! Helper lemmas about the streak loops. -/

/-- Every probe counted by `streakLoop` was a successful membership test. -/
theorem streakLoop_mem (mem : Int → Bool) :
    ∀ (n : Nat) (z : Int) (i : Nat), i < streakLoop mem z n → mem (z - i) = true := by
  intro n
  induction n with
  | zero => intro z i h; simp [streakLoop] at h
  | succ n ih =>
    intro z i h
    by_cases hm : mem z = true
    · match i with
      | 0 => simpa using hm
      | i + 1 =>
        simp only [streakLoop, hm, if_true] at h
        have hi : i < streakLoop mem (z - 1) n := by omega
        have := ih (z - 1) i hi
        have hz : z - (i + 1 : Nat) = z - 1 - i := by push_cast; ring
        rwa [hz]
    · simp [streakLoop, hm] at h

/-- The loop counts at most `fuel` days. -/
theorem streakLoop_le_fuel (mem : Int → Bool) :
    ∀ (n : Nat) (z : Int), streakLoop mem z n ≤ n := by
  intro n
  induction n with
  | zero => intro z; simp [streakLoop]
  | succ n ih =>
    intro z
    by_cases hm : mem z = true
    · simp only [streakLoop, hm, if_true]
      have := ih (z - 1)
      omega
    · simp [streakLoop, hm]

/-- Fuel sufficiency: once the loop stops strictly before exhausting its
fuel, adding fuel does not change the count.  This is why the bounded
embedding computes the same value as the unbounded source loop. -/
theorem streakLoop_fuel_eq (mem : Int → Bool) :
    ∀ (n m : Nat) (z : Int), streakLoop mem z n < n → n ≤ m →
      streakLoop mem z m = streakLoop mem z n := by
  intro n
  induction n with
  | zero => intro m z h; omega
  | succ n ih =>
    intro m z h hnm
    match m, hnm with
    | m + 1, _ =>
      by_cases hm : mem z = true
      · simp only [streakLoop, hm, if_true] at h ⊢
        have hlt : streakLoop mem (z - 1) n < n := by omega
        have := ih m (z - 1) hlt (by omega)
        omega
      · simp [streakLoop, hm]

/-- Pigeonhole bound: the current streak cannot exceed the history length,
because the counted days are pairwise distinct members of the history. -/
theorem currentStreakZ_le_length (hist : List Int) (d : Int) :
    currentStreakZ hist d ≤ hist.length := by
  by_contra hgt
  set L := hist.length with hL
  have hle : currentStreakZ hist d ≤ L + 1 :=
    streakLoop_le_fuel _ (L + 1) d
  have hk : currentStreakZ hist d = L + 1 := by omega
  have hmem : ∀ i : Nat, i < L + 1 → (d - i) ∈ hist := by
    intro i hi
    have := streakLoop_mem (fun w => hist.contains w) (L + 1) d i (by
      rw [← hk] at hi; exact hi)
    simpa using this
  have hsub : Finset.image (fun i : Nat => d - i) (Finset.range (L + 1)) ⊆ hist.toFinset := by
    intro x hx
    rcases Finset.mem_image.mp hx with ⟨i, hi, rfl⟩
    exact List.mem_toFinset.mpr (hmem i (Finset.mem_range.mp hi))
  have hcard : (Finset.image (fun i : Nat => d - i) (Finset.range (L + 1))).card = L + 1 := by
    rw [Finset.card_image_of_injOn, Finset.card_range]
    intro i _ j _ hij
    have hij' : d - (i : Int) = d - (j : Int) := hij
    omega
  have h1 : L + 1 ≤ hist.toFinset.card := by
    rw [← hcard]; exact Finset.card_le_card hsub
  have h2 : hist.toFinset.card ≤ L := hist.toFinset_card_le
  omega

theorem runList_mem : ∀ (j : Nat) (a x : Int), x ∈ runList a j ↔ a ≤ x ∧ x < a + j := by
  intro j
  induction j with
  | zero =>
    intro a x
    simp only [runList, List.mem_nil_iff, false_iff]
    omega
  | succ j ih =>
    intro a x
    simp only [runList, List.mem_cons, ih]
    constructor
    · rintro (rfl | ⟨h1, h2⟩) <;> omega
    · intro ⟨h1, h2⟩
      by_cases hx : x = a
      · exact Or.inl hx
      · exact Or.inr ⟨by omega, by omega⟩

theorem runList_sorted : ∀ (j : Nat) (a : Int), List.Sorted (· ≤ ·) (runList a j) := by
  intro j
  induction j with
  | zero => intro a; simp [runList]
  | succ j ih =>
    intro a
    refine List.Pairwise.cons ?_ (ih (a + 1))
    intro x hx
    have := (runList_mem j (a + 1) x).mp hx
    omega

theorem runList_nodup : ∀ (j : Nat) (a : Int), (runList a j).Nodup := by
  intro j
  induction j with
  | zero => intro a; simp [runList]
  | succ j ih =>
    intro a
    refine List.Pairwise.cons ?_ (ih (a + 1))
    intro x hx
    have := (runList_mem j (a + 1) x).mp hx
    omega

/-- Scanning a contiguous run starting one day after `prev` pushes the
running streak up by the run's length. -/
theorem longestGoZ_run : ∀ (j : Nat) (a : Int) (cur mx : Nat), cur ≤ mx →
    cur + j ≤ longestGoZ a cur mx (runList (a + 1) j) := by
  intro j
  induction j with
  | zero => intro a cur mx h; simpa [runList, longestGoZ] using h
  | succ j ih =>
    intro a cur mx h
    simp only [runList, longestGoZ]
    rw [if_pos (show a + 1 - a = (1 : Int) by ring)]
    have := ih (a + 1) (cur + 1) (max mx (cur + 1)) (by omega)
    omega

/-- A contiguous run of length `j + 1` sitting anywhere in the scanned tail
forces the final maximum to be at least `j + 1`. -/
theorem longestGoZ_seg : ∀ (l : List Int) (j : Nat) (a prev : Int) (cur mx : Nat),
    1 ≤ mx → cur ≤ mx →
    j + 1 ≤ longestGoZ prev cur mx (l ++ a :: runList (a + 1) j) := by
  intro l
  induction l with
  | nil =>
    intro j a prev cur mx h1 h2
    by_cases hd : a - prev = 1
    · simp only [List.nil_append, longestGoZ]
      rw [if_pos hd]
      have := longestGoZ_run j a (cur + 1) (max mx (cur + 1)) (by omega)
      omega
    · simp only [List.nil_append, longestGoZ]
      rw [if_neg hd]
      have := longestGoZ_run j a 1 mx h1
      omega
  | cons x xs ih =>
    intro j a prev cur mx h1 h2
    by_cases hd : x - prev = 1
    · simp only [List.cons_append, longestGoZ]
      rw [if_pos hd]
      exact ih j a x (cur + 1) (max mx (cur + 1)) (by omega) (by omega)
    · simp only [List.cons_append, longestGoZ]
      rw [if_neg hd]
      exact ih j a x 1 mx h1 h1

/-- In a `≤`-sorted integer list, everything surviving `dropWhile (· < c)` is
at least `c`. -/
theorem sorted_dropWhile_ge (c : Int) :
    ∀ (l : List Int), List.Sorted (· ≤ ·) l →
      ∀ x ∈ l.dropWhile (fun y => decide (y < c)), c ≤ x := by
  intro l
  induction l with
  | nil => simp
  | cons a l ih =>
    intro hl x hx
    by_cases ha : a < c
    · rw [List.dropWhile_cons, if_pos (by simpa using ha)] at hx
      exact ih (List.pairwise_cons.mp hl).2 x hx
    · rw [List.dropWhile_cons, if_neg (by simpa using ha)] at hx
      rcases List.mem_cons.mp hx with rfl | hx'
      · omega
      · have := (List.pairwise_cons.mp hl).1 x hx'
        omega

/-- Core streak bound on deduplicated histories: against any reference day at
or after every history entry, the longest streak dominates the current
streak.  This is the claim of the spec restricted to duplicate-free
histories (`longestStreakZ` does not deduplicate, see the counterexample). -/
theorem currentStreakZ_le_longestStreakZ (hist : List Int) (day : Int)
    (hnd : hist.Nodup) (hmax : ∀ x ∈ hist, x ≤ day) :
    currentStreakZ hist day ≤ longestStreakZ hist := by
  rcases Nat.eq_zero_or_pos (currentStreakZ hist day) with hk0 | hkpos
  · omega
  set k := currentStreakZ hist day with hk
  have hrun : ∀ i : Nat, i < k → (day - i) ∈ hist := by
    intro i hi
    have := streakLoop_mem (fun w => hist.contains w) (hist.length + 1) day i hi
    simpa using this
  set c : Int := day - k + 1 with hc
  set s := List.insertionSort (· ≤ ·) hist with hs
  have hperm : s.Perm hist := List.perm_insertionSort _ _
  have hsort : List.Sorted (· ≤ ·) s := List.sorted_insertionSort _ _
  have hsnd : s.Nodup := hperm.nodup_iff.mpr hnd
  have hmem : ∀ x : Int, x ∈ s ↔ x ∈ hist := fun x => hperm.mem_iff
  set T := s.takeWhile (fun y => decide (y < c)) with hT
  set R := s.dropWhile (fun y => decide (y < c)) with hR
  have hTR : T ++ R = s := by
    rw [hT, hR]
    exact List.takeWhile_append_dropWhile _ _
  have hRsub : R.Sublist s := by rw [hR]; exact List.dropWhile_sublist _
  have hRsort : List.Sorted (· ≤ ·) R := List.Pairwise.sublist hRsub hsort
  have hRnd : R.Nodup := List.Nodup.sublist hRsub hsnd
  have hRmem : ∀ x : Int, x ∈ R ↔ (c ≤ x ∧ x ≤ day) := by
    intro x
    constructor
    · intro hx
      refine ⟨sorted_dropWhile_ge c s hsort x hx, ?_⟩
      exact hmax x ((hmem x).mp (hRsub.subset hx))
    · rintro ⟨h1, h2⟩
      have hi : (day - x).toNat < k := by omega
      have hxh : x ∈ hist := by
        have hm := hrun (day - x).toNat hi
        have heq : day - ((day - x).toNat : Int) = x := by omega
        rwa [heq] at hm
      have hxs : x ∈ s := (hmem x).mpr hxh
      rw [← hTR] at hxs
      rcases List.mem_append.mp hxs with hxT | hxR
      · exfalso
        have := List.mem_takeWhile_imp hxT
        simp at this
        omega
      · exact hxR
  have hrunmem : ∀ x : Int, x ∈ runList c k ↔ (c ≤ x ∧ x ≤ day) := by
    intro x
    rw [runList_mem]
    omega
  have hReq : R = runList c k := by
    refine List.eq_of_perm_of_sorted ?_ hRsort (runList_sorted k c)
    refine List.perm_of_nodup_nodup_toFinset_eq hRnd (runList_nodup k c) ?_
    ext x
    simp only [List.mem_toFinset, hRmem x, hrunmem x]
  obtain ⟨m, hm⟩ : ∃ m, k = m + 1 := ⟨k - 1, by omega⟩
  have hrl : runList c k = c :: runList (c + 1) m := by rw [hm]; rfl
  have hlong : k ≤ longestStreakZ hist := by
    simp only [longestStreakZ]
    rw [← hs, ← hTR, hReq, hrl]
    cases T with
    | nil =>
      show k ≤ longestGoZ c 1 1 (runList (c + 1) m)
      have := longestGoZ_run m c 1 1 le_rfl
      omega
    | cons t ts =>
      show k ≤ longestGoZ t 1 1 (ts ++ c :: runList (c + 1) m)
      have := longestGoZ_seg ts m c t 1 1 le_rfl le_rfl
      omega
  exact hlong

/-- Deduplicating the history does not change the current-streak walk: the
loop consults the history only through set membership, and the loop is
insensitive to the extra fuel a longer list grants. -/
theorem currentStreakZ_dedup_eq (hist : List Int) (day : Int) :
    currentStreakZ hist.dedup day = currentStreakZ hist day := by
  have hfun : (fun w => hist.dedup.contains w) = (fun w => hist.contains w) := by
    funext w
    simp
  have hlen : hist.dedup.length ≤ hist.length :=
    List.Sublist.length_le (List.dedup_sublist hist)
  have hbound : currentStreakZ hist.dedup day ≤ hist.dedup.length :=
    currentStreakZ_le_length hist.dedup day
  have hfuel :
      streakLoop (fun w => hist.dedup.contains w) day (hist.length + 1)
        = streakLoop (fun w => hist.dedup.contains w) day (hist.dedup.length + 1) :=
    streakLoop_fuel_eq _ (hist.dedup.length + 1) (hist.length + 1) day
      (by exact Nat.lt_succ_of_le hbound) (by omega)
  calc currentStreakZ hist.dedup day
      = streakLoop (fun w => hist.dedup.contains w) day (hist.length + 1) := hfuel.symm
    _ = streakLoop (fun w => hist.contains w) day (hist.length + 1) := by rw [hfun]
    _ = currentStreakZ hist day := rfl

/-! Order-theoretic facts about the embedded JS string comparison. -/

theorem charsLe_total : ∀ as bs : List Char, charsLe as bs = true ∨ charsLe bs as = true := by
  intro as
  induction as with
  | nil => intro bs; left; simp [charsLe]
  | cons a as ih =>
    intro bs
    match bs with
    | [] => right; simp [charsLe]
    | b :: bs =>
      rcases Nat.lt_trichotomy a.toNat b.toNat with h | h | h
      · left; simp [charsLe, h]
      · have h1 : ¬ a.toNat < b.toNat := by omega
        have h2 : ¬ b.toNat < a.toNat := by omega
        rcases ih bs with hl | hl
        · left; simp [charsLe, h1, h2, hl]
        · right; simp [charsLe, h1, h2, hl]
      · right; simp [charsLe, h]

theorem charsLe_trans : ∀ as bs cs : List Char,
    charsLe as bs = true → charsLe bs cs = true → charsLe as cs = true := by
  intro as
  induction as with
  | nil => intro bs cs _ _; simp [charsLe]
  | cons a as ih =>
    intro bs cs h1 h2
    match bs, cs with
    | [], _ => simp [charsLe] at h1
    | _ :: _, [] => simp [charsLe] at h2
    | b :: bs, c :: cs =>
      rcases Nat.lt_trichotomy a.toNat b.toNat with hab | hab | hab
      · rcases Nat.lt_trichotomy b.toNat c.toNat with hbc | hbc | hbc
        · simp [charsLe, show a.toNat < c.toNat by omega]
        · simp [charsLe, show a.toNat < c.toNat by omega]
        · simp [charsLe, show ¬ b.toNat < c.toNat by omega, hbc] at h2
      · rcases Nat.lt_trichotomy b.toNat c.toNat with hbc | hbc | hbc
        · simp [charsLe, show a.toNat < c.toNat by omega]
        · have hna : ¬ a.toNat < c.toNat := by omega
          have hnc : ¬ c.toNat < a.toNat := by omega
          simp only [charsLe, show ¬ a.toNat < b.toNat by omega,
            show ¬ b.toNat < a.toNat by omega, if_false] at h1
          simp only [charsLe, show ¬ b.toNat < c.toNat by omega,
            show ¬ c.toNat < b.toNat by omega, if_false] at h2
          simp only [charsLe, hna, hnc, if_false]
          exact ih bs cs h1 h2
        · simp [charsLe, show ¬ b.toNat < c.toNat by omega, hbc] at h2
      · simp [charsLe, show ¬ a.toNat < b.toNat by omega, hab] at h1

/-- Overwriting one frontmatter key leaves every other key's value alone. -/
theorem getKey_setKey_ne : ∀ (fm : List (String × Val)) (q r : String) (v : Val), q ≠ r →
    getKey (setKey fm q v) r = getKey fm r := by
  intro fm
  induction fm with
  | nil => intro q r v hqr; simp [setKey, getKey, hqr]
  | cons p rest ih =>
    intro q r v hqr
    obtain ⟨a, b⟩ := p
    by_cases hq : a = q
    · subst hq
      simp only [setKey, if_pos rfl]
      simp [getKey, hqr]
    · simp only [setKey, if_neg hq]
      by_cases har : a = r
      · simp [getKey, har]
      · simp [getKey, har, ih q r v hqr]

/-- The caught-and-continue callback loop is extensionally a `map`: every
callback receives `(old, new)` and contributes exactly its own outcome to
the trace, whether or not it throws. -/
theorem runCallbacks_eq_map (old new : ISODate) :
    ∀ cbs : List DayCb, runCallbacks old new cbs = cbs.map (fun c => c old new) := by
  intro cbs
  induction cbs with
  | nil => rfl
  | cons c cs ih =>
    match h : c old new with
    | .ok u => simp [runCallbacks, h, ih]
    | .error e => simp [runCallbacks, h, ih]

/-! Claim theorems. -/

/-- C1: the spec (and the repository's own habit.spec.ts) require
`currentStreak = 3` for history `[09,10,11]` against reference day `12`, the
day itself absent but the day before present.  The source walk starts at the
reference day itself and breaks at the first absent day, so it returns 0
there; after `markDone` for the reference day it does return 4 as claimed.
This theorem evaluates the embedded source code at that failing input. -/
theorem C1_currentStreak_eval :
    currentStreak habC1.history "2025-11-12" = some 0 ∧
    currentStreak (markDone habC1 "2025-11-12").history "2025-11-12" = some 4 := by
  decide

/-- C2 counterexample: with a duplicated entry, against the reference day
`2025-11-12` (at or after every history entry, witnessed by the `all` check),
the current streak is 3 while the longest streak is only 2 — the duplicate
resets the adjacent-pair scan of `longestStreak`, which does not dedupe. -/
theorem C2_counterexample :
    histDup.all (fun x => strLe x "2025-11-12") = true ∧
    currentStreak histDup "2025-11-12" = some 3 ∧
    longestStreak histDup = 2 := by
  decide

/-- C2 (amended): for every duplicate-free record history and every reference
day at or after each history entry, the longest streak is at least the
current streak (epoch-day rendering of the streak functions). -/
theorem C2_streak_bound (hist : List Int) (day : Int) (hnd : hist.Nodup)
    (hmax : ∀ x ∈ hist, x ≤ day) :
    longestStreakZ hist ≥ currentStreakZ hist day :=
  currentStreakZ_le_longestStreakZ hist day hnd hmax

/-- C2 witness: the amended bound instantiated at the duplicate-free history
`[10, 11, 12]` with reference day 12. -/
theorem C2_streak_bound_witness :
    ([10, 11, 12] : List Int).Nodup ∧
    longestStreakZ [10, 11, 12] ≥ currentStreakZ [10, 11, 12] 12 :=
  ⟨by decide, C2_streak_bound [10, 11, 12] 12 (by decide) (by decide)⟩

/-- C3 counterexample: `markDone` on a record with an explicit count override
and a fresh day replaces the override 5 with the new history length 2 — the
source sets `count: newHistory.length` unconditionally. -/
theorem C3_counterexample :
    habC3.count = some 5 ∧
    habC3.history.contains "2025-11-10" = false ∧
    (markDone habC3 "2025-11-10").count = some 2 := by
  decide

/-- C3 (amended): inserting a fresh day via `markDone` always sets `count` to
the new history length, overwriting any explicit override. -/
theorem C3_markDone_count (h : Habit) (d : ISODate) (hd : h.history.contains d = false) :
    (markDone h d).count = some (Int.ofNat (h.history.length + 1)) := by
  rw [markDone, if_neg (by rw [hd]; simp)]
  have hlen := (List.perm_insertionSort strLeP (h.history ++ [d])).length_eq
  simp [hlen]

/-- C3 witness: the amended count law instantiated at the override habit. -/
theorem C3_markDone_count_witness :
    habC3.history.contains "2025-11-10" = false ∧
    (markDone habC3 "2025-11-10").count = some (Int.ofNat (habC3.history.length + 1)) :=
  ⟨by decide, C3_markDone_count habC3 "2025-11-10" (by decide)⟩

/-- C4 counterexample: removing the duplicate `2025-11-11` changes
`longestStreak` from 2 to 3, so duplicates do change a streak result. -/
theorem C4_counterexample :
    longestStreak histDup = 2 ∧ longestStreak histDup.dedup = 3 := by
  decide

/-- C4 (amended): duplicates never change `currentStreak` — the walk consults
the history only as a set — while `longestStreak` is not invariant under
deduplication (its adjacent-pair scan is reset by a duplicate, see the
counterexample). -/
theorem C4_currentStreak_dedup (hist : List Int) (day : Int) :
    currentStreakZ hist.dedup day = currentStreakZ hist day :=
  currentStreakZ_dedup_eq hist day

/-- C5: `markDone` is idempotent — after the first insertion the day is
present, so the second call takes the no-op branch. -/
theorem C5_markDone_idempotent (h : Habit) (d : ISODate) :
    markDone (markDone h d) d = markDone h d := by
  by_cases hc : h.history.contains d = true
  · have h1 : markDone h d = h := by rw [markDone, if_pos hc]
    rw [h1]
    exact h1
  · have hc' : h.history.contains d = false := by simpa using hc
    have hmd : markDone h d =
        { h with history := List.insertionSort strLeP (h.history ++ [d]),
                 count := some (Int.ofNat (List.insertionSort strLeP (h.history ++ [d])).length) } := by
      rw [markDone, if_neg (by rw [hc']; simp)]
    rw [hmd]
    simp [markDone]

/-- C6 counterexample: `normalizeHistory` sorts but performs no
deduplication — the pipeline is `map`, `filter`, `sort` only — so a
duplicated raw entry survives into the result. -/
theorem C6_counterexample :
    normalizeHistory rawC6 = ["2025-11-09", "2025-11-09"] ∧
    ¬ (normalizeHistory rawC6).Nodup := by
  decide

/-- C6 (amended): every entry of the normalized history matches the strict
`YYYY-MM-DD` grammar (string inputs contribute their leading prefix,
date-like inputs their unconverted UTC day, non-matching entries are
dropped) and the result is sorted ascending — but it is not deduplicated. -/
theorem C6_normalizeHistory_shape (raw : List RawItem) :
    List.Sorted strLeP (normalizeHistory raw) ∧
    (normalizeHistory raw).all isShapeISO = true := by
  haveI : IsTotal String strLeP := ⟨fun a b => charsLe_total a.data b.data⟩
  haveI : IsTrans String strLeP := ⟨fun a b c ha hb => charsLe_trans a.data b.data c.data ha hb⟩
  constructor
  · exact List.sorted_insertionSort strLeP _
  · rw [List.all_eq_true]
    intro x hx
    have hx' : x ∈ (raw.map normalizeItem).filter isShapeISO :=
      (List.mem_insertionSort strLeP).mp hx
    exact List.of_mem_filter hx'

/-- C7: when the optional daily-note logging is enabled and the secondary
append throws, `increment` still returns the updated record inside a
successful result and the primary `writeHabit` effect stands — the error is
swallowed by the `try/catch` and never reaches the caller. -/
theorem C7_increment_secondary_isolated (habit : Habit) (today : ISODate) (err : String) :
    increment habit today true true (Except.error err)
      = Except.ok (incrementUpdated habit today, [Effect.write (incrementUpdated habit today)]) := by
  rfl

/-- C8: `writeHabit` reattaches the body verbatim and preserves the value of
every existing header field other than the overlaid `title`, `trigger`,
`schedule`, `history`, `count` and the `habit` flag. -/
theorem C8_writeHabit_frame (doc : Doc) (habit : Habit) (k : String)
    (h1 : k ≠ "title") (h2 : k ≠ "trigger") (h3 : k ≠ "schedule")
    (h4 : k ≠ "history") (h5 : k ≠ "count") (h6 : k ≠ "habit") :
    (writeHabit doc habit).body = doc.body ∧
    getKey (writeHabit doc habit).fm k = getKey doc.fm k := by
  refine ⟨rfl, ?_⟩
  show getKey (overlayHabit doc.fm habit) k = getKey doc.fm k
  have h1' := Ne.symm h1
  have h2' := Ne.symm h2
  have h3' := Ne.symm h3
  have h4' := Ne.symm h4
  have h5' := Ne.symm h5
  have h6' := Ne.symm h6
  simp only [overlayHabit]
  rcases habit.trigger with _ | t <;> rcases habit.schedule with _ | sc <;>
    rcases habit.count with _ | c <;>
    simp only [] <;> (try split_ifs) <;>
    simp [getKey_setKey_ne, h1', h2', h3', h4', h5', h6']

/-- C9: on a detected rollover, `checkForDayChange` invokes every registered
callback with `(oldDay, newDay)` — the trace is exactly the map of the
callbacks over that pair, so a throwing callback (an `.error` outcome) never
prevents later callbacks from running — and then updates the stored day. -/
theorem C9_day_rollover (st : DetectorState) (currentDate : ISODate)
    (hne : currentDate ≠ st.lastCheckedDate) :
    (checkForDayChange st currentDate).1.lastCheckedDate = currentDate ∧
    (checkForDayChange st currentDate).2
      = st.callbacks.map (fun c => c st.lastCheckedDate currentDate) := by
  rw [checkForDayChange, if_pos hne]
  exact ⟨rfl, runCallbacks_eq_map _ _ st.callbacks⟩

/-- C9 witness: a concrete rollover from `2025-11-11` to `2025-11-12` with a
throwing first callback still produces both outcomes and the updated day. -/
theorem C9_day_rollover_witness :
    "2025-11-12" ≠ stC9.lastCheckedDate ∧
    ((checkForDayChange stC9 "2025-11-12").1.lastCheckedDate = "2025-11-12" ∧
     (checkForDayChange stC9 "2025-11-12").2
       = stC9.callbacks.map (fun c => c stC9.lastCheckedDate "2025-11-12")) :=
  ⟨by decide, C9_day_rollover stC9 "2025-11-12" (by decide)⟩

/-- C10: the backward walk of the source `currentStreak` starts at the
reference day itself, so whenever that day is absent from the history the
result is 0, however many completed days immediately precede it. -/
theorem C10_absent_day_zero (hist : List Int) (d : Int) (hd : d ∉ hist) :
    currentStreakZ hist d = 0 := by
  have hc : hist.contains d = false := by simpa using hd
  show streakLoop (fun w => hist.contains w) d (hist.length + 1) = 0
  simp only [streakLoop]
  rw [if_neg (by rw [hc]; simp)]

/-- C10 witness: day 5 is absent from `[1, 2, 3]`, so the current streak is 0
even though days 1–3 form a run. -/
theorem C10_absent_day_zero_witness :
    (5 : Int) ∉ ([1, 2, 3] : List Int) ∧ currentStreakZ [1, 2, 3] 5 = 0 :=
  ⟨by decide, C10_absent_day_zero [1, 2, 3] 5 (by decide)⟩

/-- C8 witness: overlaying a concrete habit onto a document with an unrelated
`custom` header field keeps the body and the `custom` value. -/
theorem C8_writeHabit_frame_witness :
    (writeHabit docC8 habC8).body = docC8.body ∧
    getKey (writeHabit docC8 habC8).fm "custom" = getKey docC8.fm "custom" :=
  C8_writeHabit_frame docC8 habC8 "custom" (by decide) (by decide) (by decide)
    (by decide) (by decide) (by decide)
